import Mathlib

set_option autoImplicit false

namespace Patchy

/-! Shallow embedding of `patchy/core.py` from the `django-more` repository:
a heap of Python objects, the predecessor registry (`PatchyRecords`), the
`PatchBase.apply` engine, name resolution (`resolve`), the entry point
(`patchy`), the call-chaining primitive (`super_patchy`) and
`PatchClass.add_desc`.  Machine identities (`id(...)`) are modelled by heap
addresses and code-object ids, which Python guarantees to be distinct for
distinct live objects. -/

abbrev Addr := Nat

/-- Behaviours of the function fixtures that appear in patch scenarios:
return a string constant, or call `super_patchy()` and append a suffix to
the string it returns, or do nothing of interest. -/
inductive FuncBody where
  | constStr (s : String)
  | chainAppend (s : String)
  | inert
deriving DecidableEq, Repr

/-- A Python value: `None`, an int, a str, a reference to a heap object, a
direct reference to a code object (identified by its id), or a bound method
(`types.MethodType`, pairing a function with the value it is bound to). -/
inductive Value where
  | pyNone
  | intV (n : Int)
  | strV (s : String)
  | ref (a : Addr)
  | codeV (c : Nat)
  | boundMethod (fn : Value) (slf : Value)
deriving DecidableEq, Repr

/-- A heap object: a module or class with its attribute dict, an instance of
a class, a list, a dict with string keys, a function (with the id of its
code object, its `__name__`, its positional parameter names and its body),
or a `classmethod`/`staticmethod` wrapper around a function. -/
inductive PyObj where
  | module (mname : String) (attrs : List (String × Value))
  | cls (cname : String) (attrs : List (String × Value))
  | inst (ofCls : Addr)
  | pylist (elems : List Value)
  | pydict (entries : List (String × Value))
  | func (codeId : Nat) (fname : String) (params : List String) (body : FuncBody)
  | classmeth (fn : Value)
  | staticmeth (fn : Value)
deriving DecidableEq, Repr

/-- Look up a key in an association list. -/
def assocGet {α β : Type} [DecidableEq α] : List (α × β) → α → Option β
  | [], _ => Option.none
  | (k1, v1) :: rest, k => if k1 = k then some v1 else assocGet rest k

/-- Set a key in an association list, Python-dict style: an existing key
keeps its position (and its original key object), a new key is appended. -/
def assocSet {α β : Type} [DecidableEq α] : List (α × β) → α → β → List (α × β)
  | [], k, v => [(k, v)]
  | (k1, v1) :: rest, k, v =>
    if k1 = k then (k1, v) :: rest else (k1, v1) :: assocSet rest k v

abbrev Heap := List (Addr × PyObj)

def heapGet (h : Heap) (a : Addr) : Option PyObj := assocGet h a

def heapSet (h : Heap) (a : Addr) (o : PyObj) : Heap := assocSet h a o

/-- The `__name__` of a value, when it has one (functions, classes,
modules). -/
def valueName (h : Heap) : Value → Option String
  | .ref a =>
    match heapGet h a with
    | some (.func _ n _ _) => some n
    | some (.cls n _) => some n
    | some (.module n _) => some n
    | _ => Option.none
  | _ => Option.none

/-- `callable(v)`: true for functions, classes and bound methods.  A bare
`classmethod`/`staticmethod` wrapper object is not callable. -/
def callableV (h : Heap) : Value → Bool
  | .ref a =>
    match heapGet h a with
    | some (.func ..) => true
    | some (.cls ..) => true
    | _ => false
  | .boundMethod _ _ => true
  | _ => false

/-- `inspect.getattr_static(target, attr, None)`: the raw, locally declared
attribute of a module or class, with default `None`. -/
def getattrStatic (h : Heap) (a : Addr) (name : String) : Value :=
  match heapGet h a with
  | some (.module _ attrs) => (assocGet attrs name).getD .pyNone
  | some (.cls _ attrs) => (assocGet attrs name).getD .pyNone
  | _ => .pyNone

/-- Descriptor resolution for an attribute fetched from a class. -/
def classAttrGet (h : Heap) (clsAddr : Addr) (v : Value) : Value :=
  match v with
  | .ref va =>
    match heapGet h va with
    | some (.classmeth f) => .boundMethod f (.ref clsAddr)
    | some (.staticmeth f) => f
    | _ => v
  | _ => v

/-- Descriptor resolution for an attribute fetched from an instance:
functions become methods bound to the instance. -/
def instAttrGet (h : Heap) (instAddr clsAddr : Addr) (v : Value) : Value :=
  match v with
  | .ref va =>
    match heapGet h va with
    | some (.func ..) => .boundMethod v (.ref instAddr)
    | some (.classmeth f) => .boundMethod f (.ref clsAddr)
    | some (.staticmeth f) => f
    | _ => v
  | _ => v

/-- Ordinary `getattr(obj, name)` for modules, classes and instances;
`Option.none` models an `AttributeError`. -/
def getattrObj (h : Heap) (a : Addr) (name : String) : Option Value :=
  match heapGet h a with
  | some (.module _ attrs) => assocGet attrs name
  | some (.cls _ attrs) => (assocGet attrs name).map (classAttrGet h a)
  | some (.inst c) =>
    match heapGet h c with
    | some (.cls _ attrs) => (assocGet attrs name).map (instAttrGet h a c)
    | _ => Option.none
  | _ => Option.none

/-- `setattr(obj, name, v)` on a module or class target. -/
def setattrObj (h : Heap) (a : Addr) (name : String) (v : Value) : Heap :=
  match heapGet h a with
  | some (.module n attrs) => heapSet h a (.module n (assocSet attrs name v))
  | some (.cls n attrs) => heapSet h a (.cls n (assocSet attrs name v))
  | _ => h

/-! ## The predecessor registry (`PatchyRecords`) -/

/-- The id a key is stored under after `PatchyRecords` key normalization:
`key = key.__code__` when the key has a `__code__` (a function or a bound
method), then `id(key)`.  Distinct constructors model the disjoint id
spaces of live objects. -/
inductive RecKey where
  | codeK (c : Nat)
  | objK (a : Addr)
  | immK (v : Value)
deriving DecidableEq, Repr

/-- Key normalization of `PatchyRecords`: a function key (or a bound method,
whose `__code__` delegates to its function) is replaced by its code object,
then the id is taken. -/
def recordKey (h : Heap) : Value → RecKey
  | .ref a =>
    match heapGet h a with
    | some (.func c _ _ _) => .codeK c
    | _ => .objK a
  | .codeV c => .codeK c
  | .boundMethod f s =>
    match f with
    | .ref a =>
      match heapGet h a with
      | some (.func c _ _ _) => .codeK c
      | _ => .immK (.boundMethod f s)
    | _ => .immK (.boundMethod f s)
  | v => .immK v

/-- Value normalization of `PatchyRecords.__setitem__`: a `classmethod` or
`staticmethod` wrapper is replaced by its `__func__`. -/
def stripWrapper (h : Heap) (v : Value) : Value :=
  match v with
  | .ref a =>
    match heapGet h a with
    | some (.classmeth f) => f
    | some (.staticmeth f) => f
    | _ => v
  | _ => v

abbrev Records := List (RecKey × Value)

/-- `PatchyRecords.__setitem__`. -/
def recordsSet (h : Heap) (r : Records) (key value : Value) : Records :=
  assocSet r (recordKey h key) (stripWrapper h value)

/-- `PatchyRecords.__getitem__`; `Option.none` models the raised
`RuntimeError` when no predecessor is recorded. -/
def recordsGet (h : Heap) (r : Records) (key : Value) : Option Value :=
  assocGet r (recordKey h key)

/-- `PatchyRecords.__contains__`. -/
def recordsContains (h : Heap) (r : Records) (key : Value) : Bool :=
  (recordsGet h r key).isSome

/-- `PatchyRecords.__delitem__` (removal of the normalized key). -/
def recordsDel (h : Heap) (r : Records) (key : Value) : Records :=
  r.filter (fun p => decide (p.1 ≠ recordKey h key))

/-- The mutable program state: the heap and the process-wide
`patchy_records` registry. -/
structure PState where
  heap : Heap
  recs : Records
deriving DecidableEq, Repr

/-! ## The apply engine (`PatchBase.apply`) -/

/-- Python errors that the modelled code can raise. -/
inductive PyErr where
  | importErr (msg : String)
  | attrErr (msg : String)
  | typeErr (msg : String)
  | runtimeErr (msg : String)
  | indexErr (msg : String)
  | keyErr (msg : String)
deriving DecidableEq, Repr

/-- The first loop of `PatchBase.apply`: fold the positional attributes into
the keyword mapping.  An object with a `__name__` is filed under that name;
anything else is treated as a string key resolved with
`getattr(self.source, attr)` (raising `AttributeError` when absent, or
`TypeError` when the entry is not even a string). -/
def buildKattrs (h : Heap) (source : Option Value) :
    List Value → List (String × Value) → Except PyErr (List (String × Value))
  | [], kattrs => .ok kattrs
  | a :: rest, kattrs =>
    match valueName h a with
    | some n => buildKattrs h source rest (assocSet kattrs n a)
    | Option.none =>
      match a with
      | .strV s =>
        match source with
        | some (.ref srcA) =>
          match getattrObj h srcA s with
          | some v => buildKattrs h source rest (assocSet kattrs s v)
          | Option.none => .error (.attrErr s)
        | _ => .error (.attrErr s)
      | _ => .error (.typeErr "attribute names must be strings")

/-- The merge branch of `PatchBase.apply`: when both the new and the old
value are dicts, `getattr(self.target, attr).update(value)`; when both are
lists, `getattr(self.target, attr).extend(value)`; otherwise no mutation. -/
def mergeInPlace (h : Heap) (target : Addr) (attr : String)
    (value old_value : Value) : Heap :=
  let isDict : Value → Bool := fun v =>
    match v with
    | .ref a => match heapGet h a with | some (.pydict _) => true | _ => false
    | _ => false
  let isList : Value → Bool := fun v =>
    match v with
    | .ref a => match heapGet h a with | some (.pylist _) => true | _ => false
    | _ => false
  if isDict value && isDict old_value then
    match getattrObj h target attr, value with
    | some (.ref ta), .ref va =>
      match heapGet h ta, heapGet h va with
      | some (.pydict es), some (.pydict newEs) =>
        heapSet h ta (.pydict (newEs.foldl (fun acc p => assocSet acc p.1 p.2) es))
      | _, _ => h
    | _, _ => h
  else if isList value && isList old_value then
    match getattrObj h target attr, value with
    | some (.ref ta), .ref va =>
      match heapGet h ta, heapGet h va with
      | some (.pylist es), some (.pylist newEs) => heapSet h ta (.pylist (es ++ newEs))
      | _, _ => h
    | _, _ => h
  else h

/-- The tail of one iteration of the second loop of `PatchBase.apply`: the
optional in-place merge followed by the unconditional
`setattr(self.target, attr, value)`. -/
def applyWrite (st : PState) (target : Addr) (merge : Bool) (attr : String)
    (value old_value : Value) : PState :=
  let h := if merge then mergeInPlace st.heap target attr value old_value else st.heap
  ⟨setattrObj h target attr value, st.recs⟩

/-- The second loop of `PatchBase.apply` over the normalized
`(name, value)` entries.  When both the current and the new value are
callable, a new value already present in `patchy_records` makes the whole
call return (aborting the remaining entries); otherwise the predecessor is
recorded.  Every entry that is not cut short is merged (optionally) and
then written. -/
def applyEntries (target : Addr) (merge : Bool) :
    PState → List (String × Value) → PState
  | st, [] => st
  | st, (attr, value) :: rest =>
    let old_value := getattrStatic st.heap target attr
    if callableV st.heap value && callableV st.heap old_value then
      if recordsContains st.heap st.recs value then st
      else
        applyEntries target merge
          (applyWrite ⟨st.heap, recordsSet st.heap st.recs value old_value⟩
            target merge attr value old_value) rest
    else
      applyEntries target merge (applyWrite st target merge attr value old_value) rest

/-- `PatchBase.apply(attrs, kattrs, merge)`. -/
def applyPatch (st : PState) (target : Addr) (source : Option Value)
    (attrs : List Value) (kattrs : List (String × Value)) (merge : Bool) :
    Except PyErr PState :=
  match buildKattrs st.heap source attrs kattrs with
  | .error e => .error e
  | .ok entries => .ok (applyEntries target merge st entries)

/-- `add(*attrs, **kattrs)`. -/
def addPatch (st : PState) (target : Addr) (source : Option Value)
    (attrs : List Value) (kattrs : List (String × Value)) : Except PyErr PState :=
  applyPatch st target source attrs kattrs false

/-- `merge(*attrs, **kattrs)`. -/
def mergePatch (st : PState) (target : Addr) (source : Option Value)
    (attrs : List Value) (kattrs : List (String × Value)) : Except PyErr PState :=
  applyPatch st target source attrs kattrs true

/-! ## Name resolution (`resolve`) -/

/-- The import system at the interface `resolve` consumes: a table from
absolute dotted module names to module objects on the heap. -/
structure ImportEnv where
  modules : List (String × Addr)
deriving DecidableEq, Repr

/-- Whether the string begins with a dot (the relative-import marker). -/
def startsWithDot (s : String) : Bool :=
  match s.data with
  | [] => false
  | c :: _ => c = '.'

/-- Whether the string contains a dot anywhere. -/
def containsDot (s : String) : Bool := s.data.any (fun c => c = '.')

/-- Split a dotted name at its last dot, like `name.rsplit(sep, maxsplit=1)`
on a name that contains the separator. -/
def rsplitDot (s : String) : String × String :=
  let revAfter := s.data.reverse.takeWhile (fun c => !(c == '.'))
  let revBefore := s.data.reverse.dropWhile (fun c => !(c == '.'))
  (⟨(revBefore.drop 1).reverse⟩, ⟨revAfter.reverse⟩)

/-- `importlib.import_module(name, package)` as `resolve` uses it: a `None`
name fails with `AttributeError` (from `name.startswith`), a relative name
is joined to the package name, and a missing module raises `ImportError`. -/
def importModule (env : ImportEnv) (name : Option String) (pkgName : Option String) :
    Except PyErr Addr :=
  match name with
  | Option.none => .error (.attrErr "NoneType object has no attribute startswith")
  | some n =>
    if startsWithDot n then
      match pkgName with
      | Option.none => .error (.typeErr "the package argument is required for a relative import")
      | some p =>
        match assocGet env.modules (p ++ n) with
        | some a => .ok a
        | Option.none => .error (.importErr ("No module named " ++ p ++ n))
    else
      match assocGet env.modules n with
      | some a => .ok a
      | Option.none => .error (.importErr ("No module named " ++ n))

def moduleName (h : Heap) (a : Addr) : Option String :=
  match heapGet h a with
  | some (.module n _) => some n
  | _ => Option.none

def isModuleAddr (h : Heap) (a : Addr) : Bool :=
  match heapGet h a with
  | some (.module _ _) => true
  | _ => false

/-- The `package` argument of `resolve`: absent, a dotted name string, or an
already-resolved module. -/
inductive PkgArg where
  | noneA
  | strA (s : String)
  | modA (a : Addr)
deriving DecidableEq, Repr

/-- The part of `name` before the last dot (`name.rsplit(sep, maxsplit=1)`,
first component). -/
def dottedInit (name : String) : String := (rsplitDot name).1

/-- The part of `name` after the last dot (`name.rsplit(sep, maxsplit=1)`,
second component). -/
def dottedLast (name : String) : String := (rsplitDot name).2

/-- The message of the `ImportError` raised at the end of `resolve`. -/
def finalResolveMsg (h : Heap) (name : String) (pkg : Option Addr) : String :=
  name ++ " is not a valid class or module name" ++
    (match pkg with
     | some a => ", within " ++ ((moduleName h a).getD "")
     | Option.none => "")

/-- The second `with suppress(ImportError)` block of `resolve` together with
the final `raise`: split a dotted name at its last dot, import the head and
fetch the tail as an attribute; a dotless name is fetched as an attribute of
the package module — but when there is no package, `import_module(None)`
raises an uncaught `AttributeError`.  Any fall-through raises `ImportError`
with a message built from the (re-bound) trailing name and the package in
scope at the raise. -/
def resolveFallback (h : Heap) (env : ImportEnv) (name : String)
    (pkgOpt : Option Addr) (pkgName : Option String) (rel : String) :
    Except PyErr Value :=
  if containsDot name then
    let modPart := dottedInit name
    let attrPart := dottedLast name
    match importModule env (some (rel ++ modPart)) pkgName with
    | .ok pa =>
      match getattrObj h pa attrPart with
      | some v => .ok v
      | Option.none => .error (.importErr (finalResolveMsg h attrPart (some pa)))
    | .error (.importErr _) => .error (.importErr (finalResolveMsg h attrPart pkgOpt))
    | .error e => .error e
  else
    match pkgOpt with
    | Option.none => .error (.attrErr "NoneType object has no attribute startswith")
    | some pa =>
      if isModuleAddr h pa then
        match getattrObj h pa name with
        | some v => .ok v
        | Option.none => .error (.importErr (finalResolveMsg h name (some pa)))
      else .error (.attrErr "module object has no attribute startswith")

/-- `resolve(name, package)`: convert a string package to a module, try
importing `name` as a (sub)module (suppressing `AttributeError` and
`ImportError`), then fall back to attribute lookup. -/
def resolveName (h : Heap) (env : ImportEnv) (name : String) (package : PkgArg) :
    Except PyErr Value :=
  let pkg0 : Except PyErr (Option Addr) :=
    match package with
    | .noneA => .ok Option.none
    | .strA s => (importModule env (some s) Option.none).map some
    | .modA a => .ok (some a)
  match pkg0 with
  | .error e => .error e
  | .ok pkgOpt =>
    let pkgName : Option String := pkgOpt.bind (moduleName h)
    let rel : String := match pkgOpt with | some _ => "." | Option.none => ""
    match importModule env (some (rel ++ name)) pkgName with
    | .ok a => .ok (.ref a)
    | .error (.importErr _) => resolveFallback h env name pkgOpt pkgName rel
    | .error (.attrErr _) => resolveFallback h env name pkgOpt pkgName rel
    | .error e => .error e

/-! ## The entry point (`patchy`) -/

/-- Python truthiness for the values of the model. -/
def truthy (h : Heap) : Value → Bool
  | .pyNone => false
  | .intV n => decide (n ≠ 0)
  | .strV s => decide (s ≠ "")
  | .ref a =>
    match heapGet h a with
    | some (.pylist es) => decide (es ≠ [])
    | some (.pydict es) => decide (es ≠ [])
    | _ => true
  | .codeV _ => true
  | .boundMethod _ _ => true

/-- A patch session: `PatchModule(target, source, module_sep)` or
`PatchClass(target, source)`. -/
inductive Session where
  | modSession (target : Addr) (source : Value) (moduleSep : String)
  | clsSession (target : Addr) (source : Value)
deriving DecidableEq, Repr

/-- The entry point `patchy(target, source=None)`: resolve string arguments,
then return a `PatchModule` for a module target, a `PatchClass` for a class
target with a truthy source, and `None` otherwise. -/
def patchyEntry (h : Heap) (env : ImportEnv) (target0 source0 : Value) :
    Except PyErr (Option Session) :=
  let rt : Except PyErr Value :=
    match target0 with
    | .strV s => resolveName h env s .noneA
    | v => .ok v
  match rt with
  | .error e => .error e
  | .ok target =>
    let rs : Except PyErr Value :=
      match source0 with
      | .strV s => resolveName h env s .noneA
      | v => .ok v
    match rs with
    | .error e => .error e
    | .ok source =>
      match target with
      | .ref a =>
        match heapGet h a with
        | some (.module _ _) => .ok (some (.modSession a source "_"))
        | some (.cls _ _) =>
          if truthy h source then .ok (some (.clsSession a source))
          else .ok Option.none
        | _ => .ok Option.none
      | _ => .ok Option.none

/-! ## The call-chaining primitive (`super_patchy`) -/

/-- What `super_patchy` decides to do, before any call happens: call the
resolved (and possibly bound) predecessor with the given arguments, hand it
back un-called, or raise. -/
inductive SuperResult where
  | callIt (fn : Value) (args : List Value)
  | giveBack (fn : Value)
  | fail (e : PyErr)
deriving DecidableEq, Repr

/-- The body of `super_patchy(*args, do_call=True, **kwargs)` up to the
final call/return: look the caller's code object up in `patchy_records`
(raising `RuntimeError` when absent), rebind the predecessor as a method
when the caller's first parameter is named `self` or `cls`, then either call
it or return it according to `do_call`. -/
def superResolve (st : PState) (callerCode : Nat) (callerArgNames : List String)
    (callerLocals : List (String × Value)) (do_call : Bool) (args : List Value) :
    SuperResult :=
  match recordsGet st.heap st.recs (.codeV callerCode) with
  | Option.none => .fail (.runtimeErr "Patched func cannot find its predecessor")
  | some old0 =>
    match callerArgNames with
    | [] => .fail (.indexErr "list index out of range")
    | first :: _ =>
      if first = "self" ∨ first = "cls" then
        match assocGet callerLocals first with
        | some b =>
          if do_call then .callIt (.boundMethod old0 b) args
          else .giveBack (.boundMethod old0 b)
        | Option.none => .fail (.keyErr first)
      else
        if do_call then .callIt old0 args else .giveBack old0

/-- A fuel-bounded evaluator for calling the function fixtures of the model:
a bound method prepends its bound value, `constStr` returns its constant,
and `chainAppend` runs `super_patchy()` (with the caller frame of the
executing function) and appends its suffix to the string result. -/
def evalCall : Nat → PState → Value → List Value → Except PyErr Value
  | 0, _, _, _ => .error (.runtimeErr "maximum recursion depth exceeded")
  | Nat.succ fuel, st, f, args =>
    match f with
    | .boundMethod g b => evalCall fuel st g (b :: args)
    | .ref a =>
      match heapGet st.heap a with
      | some (.func c _ params body) =>
        let locals := params.zip args
        match body with
        | .constStr s => .ok (.strV s)
        | .chainAppend suffix =>
          match superResolve st c params locals true [] with
          | .callIt g as =>
            match evalCall fuel st g as with
            | .ok (.strV s) => .ok (.strV (s ++ suffix))
            | .ok _ => .error (.typeErr "can only concatenate str to str")
            | .error e => .error e
          | .giveBack _ => .error (.typeErr "can only concatenate str to str")
          | .fail e => .error e
        | .inert => .ok .pyNone
      | _ => .error (.typeErr "object is not callable")
    | _ => .error (.typeErr "object is not callable")

/-- `super_patchy(*args, do_call, **kwargs)` itself, with the caller's frame
data passed explicitly (code object id, positional parameter names, local
bindings). -/
def superPatchy (fuel : Nat) (st : PState) (callerCode : Nat)
    (callerArgNames : List String) (callerLocals : List (String × Value))
    (do_call : Bool) (args : List Value) : Except PyErr Value :=
  match superResolve st callerCode callerArgNames callerLocals do_call args with
  | .callIt g as => evalCall fuel st g as
  | .giveBack g => .ok g
  | .fail e => .error e

/-- `instance.method(*args)` from outside: attribute access (binding the
function to the instance) followed by a call. -/
def callMethod (fuel : Nat) (st : PState) (instAddr : Addr) (mname : String)
    (args : List Value) : Except PyErr Value :=
  match getattrObj st.heap instAddr mname with
  | some m => evalCall fuel st m args
  | Option.none => .error (.attrErr mname)

/-! ## `PatchClass.add_desc` -/

/-- Raw `source.__dict__[k]` access (no descriptor protocol). -/
def sourceDictGet (h : Heap) (src : Value) (k : String) : Option Value :=
  match src with
  | .ref a =>
    match heapGet h a with
    | some (.cls _ attrs) => assocGet attrs k
    | some (.module _ attrs) => assocGet attrs k
    | _ => Option.none
  | _ => Option.none

/-- The positional loop of `add_desc`: a named object is written under its
own name, a string key is copied from `source.__dict__` (raising `KeyError`
when absent). -/
def addDescAttrs (target : Addr) (source : Value) :
    Heap → List Value → Except PyErr Heap
  | h, [] => .ok h
  | h, a :: rest =>
    match valueName h a with
    | some n => addDescAttrs target source (setattrObj h target n a) rest
    | Option.none =>
      match a with
      | .strV s =>
        match sourceDictGet h source s with
        | some v => addDescAttrs target source (setattrObj h target s v) rest
        | Option.none => .error (.keyErr s)
      | _ => .error (.keyErr "unhashable attribute key")

/-- `PatchClass.add_desc(*attrs, **kattrs)`: write the keyword attributes,
then the positional ones, directly onto the target.  The registry is not
consulted. -/
def addDesc (st : PState) (target : Addr) (source : Value)
    (attrs : List Value) (kattrs : List (String × Value)) : Except PyErr PState :=
  match addDescAttrs target source
      (kattrs.foldl (fun h p => setattrObj h target p.1 p.2) st.heap) attrs with
  | .ok h => .ok ⟨h, st.recs⟩
  | .error e => .error e

/-! ## Concrete fixtures used by the claim checks -/

/-- A module `target` whose attribute `n` is the list `[1, 2]` (at address
1); address 2 holds the incoming list `[3, 4]`. -/
def mergeListHeap : Heap :=
  [(0, .module "target" [("n", .ref 1)]),
   (1, .pylist [.intV 1, .intV 2]),
   (2, .pylist [.intV 3, .intV 4])]

/-- A module `target` whose attribute `n` is the dict `{a: 1}` (at address
1); address 2 holds the incoming dict `{b: 2}`. -/
def mergeDictHeap : Heap :=
  [(0, .module "target" [("n", .ref 1)]),
   (1, .pydict [("a", .intV 1)]),
   (2, .pydict [("b", .intV 2)])]

/-- Class `Foo` (method `greet` returns "hi", code object 1), class `Bar`
(method `greet` calls `super_patchy()` and appends "!", code object 2), and
an instance of `Foo` at address 30. -/
def fooBarHeap : Heap :=
  [(10, .cls "Foo" [("greet", .ref 11)]),
   (11, .func 1 "greet" ["self"] (.constStr "hi")),
   (20, .cls "Bar" [("greet", .ref 21)]),
   (21, .func 2 "greet" ["self"] (.chainAppend "!")),
   (30, .inst 10)]

/-- A model import environment standing for the `os` / `os.path` examples:
module `os` has a `path` attribute, module `os.path` has a `join`
attribute. -/
def osHeap : Heap :=
  [(5, .module "os" [("path", .ref 6)]),
   (6, .module "os.path" [("join", .intV 42)])]

def osEnv : ImportEnv := ⟨[("os", 5), ("os.path", 6)]⟩

/-- Whether a heap object is a module or a class (the two target kinds the
entry point dispatches on). -/
def isModuleOrClsObj : PyObj → Bool
  | .module _ _ => true
  | .cls _ _ => true
  | _ => false

/-! ## Association-list lemmas -/

theorem assocGet_assocSet_self {α β : Type} [DecidableEq α]
    (l : List (α × β)) (k : α) (v : β) :
    assocGet (assocSet l k v) k = some v := by
  induction l with
  | nil => simp [assocSet, assocGet]
  | cons p rest ih =>
    obtain ⟨k1, v1⟩ := p
    by_cases hk : k1 = k
    · simp [assocSet, assocGet, hk]
    · simp [assocSet, assocGet, hk, ih]

theorem assocGet_assocSet_ne {α β : Type} [DecidableEq α]
    (l : List (α × β)) {k k' : α} (hne : k' ≠ k) (v : β) :
    assocGet (assocSet l k v) k' = assocGet l k' := by
  induction l with
  | nil => simp [assocSet, assocGet, Ne.symm hne]
  | cons p rest ih =>
    obtain ⟨k1, v1⟩ := p
    by_cases hk : k1 = k
    · subst hk
      simp [assocSet, assocGet, Ne.symm hne]
    · simp [assocSet, assocGet, hk, ih]

theorem assocGet_eq_none_iff {α β : Type} [DecidableEq α]
    (l : List (α × β)) (k : α) :
    assocGet l k = Option.none ↔ k ∉ l.map Prod.fst := by
  induction l with
  | nil => simp [assocGet]
  | cons p rest ih =>
    obtain ⟨k1, v1⟩ := p
    by_cases hk : k1 = k
    · simp [assocGet, hk]
    · simp [assocGet, hk, ih, Ne.symm hk]

theorem assocSet_of_not_mem {α β : Type} [DecidableEq α]
    (l : List (α × β)) {k : α} (hk : k ∉ l.map Prod.fst) (v : β) :
    assocSet l k v = l ++ [(k, v)] := by
  induction l with
  | nil => simp [assocSet]
  | cons p rest ih =>
    obtain ⟨k1, v1⟩ := p
    simp only [List.map_cons, List.mem_cons, not_or] at hk
    simp [assocSet, Ne.symm hk.1, ih hk.2]

theorem map_fst_assocSet {α β : Type} [DecidableEq α]
    (l : List (α × β)) (k : α) (v : β) :
    (assocSet l k v).map Prod.fst
      = if k ∈ l.map Prod.fst then l.map Prod.fst else l.map Prod.fst ++ [k] := by
  induction l with
  | nil => simp [assocSet]
  | cons p rest ih =>
    obtain ⟨k1, v1⟩ := p
    by_cases hk : k1 = k
    · simp [assocSet, hk]
    · by_cases hm : k ∈ rest.map Prod.fst
      · simp [assocSet, hk, ih, hm, Ne.symm hk]
      · simp [assocSet, hk, ih, hm, Ne.symm hk]

theorem nodup_map_fst_assocSet {α β : Type} [DecidableEq α]
    (l : List (α × β)) (k : α) (v : β) (hnd : (l.map Prod.fst).Nodup) :
    ((assocSet l k v).map Prod.fst).Nodup := by
  rw [map_fst_assocSet]
  by_cases hm : k ∈ l.map Prod.fst
  · simpa [hm] using hnd
  · simpa [hm, List.nodup_append] using hnd

theorem assocGet_filter_ne {α β : Type} [DecidableEq α]
    (l : List (α × β)) (k : α) :
    assocGet (l.filter (fun p => decide (p.1 ≠ k))) k = Option.none := by
  induction l with
  | nil => simp [assocGet]
  | cons p rest ih =>
    obtain ⟨k1, v1⟩ := p
    by_cases hk : k1 = k
    · simpa [hk] using ih
    · simpa [List.filter, hk, assocGet] using ih

/-! ## Heap and apply-engine lemmas -/

theorem heapGet_heapSet_self (h : Heap) (a : Addr) (o : PyObj) :
    heapGet (heapSet h a o) a = some o :=
  assocGet_assocSet_self h a o

theorem heapGet_heapSet_ne (h : Heap) {a a' : Addr} (hne : a' ≠ a) (o : PyObj) :
    heapGet (heapSet h a o) a' = heapGet h a' :=
  assocGet_assocSet_ne h hne o

theorem callableV_func {h : Heap} {va : Addr} {c : Nat} {fn : String}
    {ps : List String} {bd : FuncBody}
    (hv : heapGet h va = some (.func c fn ps bd)) :
    callableV h (.ref va) = true := by
  simp [callableV, hv]

theorem recordKey_func {h : Heap} {va : Addr} {c : Nat} {fn : String}
    {ps : List String} {bd : FuncBody}
    (hv : heapGet h va = some (.func c fn ps bd)) :
    recordKey h (.ref va) = .codeK c := by
  simp [recordKey, hv]

theorem mergeInPlace_func {h : Heap} {va : Addr} {c : Nat} {fn : String}
    {ps : List String} {bd : FuncBody} (target : Addr) (attr : String)
    (old : Value) (hv : heapGet h va = some (.func c fn ps bd)) :
    mergeInPlace h target attr (.ref va) old = h := by
  simp [mergeInPlace, hv]

theorem getattrStatic_module {h : Heap} {a : Addr} {n : String}
    {attrs : List (String × Value)} (ha : heapGet h a = some (.module n attrs))
    (name : String) :
    getattrStatic h a name = (assocGet attrs name).getD .pyNone := by
  simp [getattrStatic, ha]

theorem setattrObj_module {h : Heap} {a : Addr} {n : String}
    {attrs : List (String × Value)} (ha : heapGet h a = some (.module n attrs))
    (name : String) (v : Value) :
    setattrObj h a name v = heapSet h a (.module n (assocSet attrs name v)) := by
  simp [setattrObj, ha]

theorem setattrObj_cls {h : Heap} {a : Addr} {n : String}
    {attrs : List (String × Value)} (ha : heapGet h a = some (.cls n attrs))
    (name : String) (v : Value) :
    setattrObj h a name v = heapSet h a (.cls n (assocSet attrs name v)) := by
  simp [setattrObj, ha]

/-- C1.  The claim says a merge apply leaves `target.n` as the original
container object, mutated in place to `[1,2,3,4]` (resp. to the union
dict).  The code instead ends every entry with the unconditional
`setattr(self.target, attr, value)`, so `target.n` becomes the *new*
container (address 2, still `[3,4]` resp. `\x7bb: 2\x7d`), while the original
container at address 1 is mutated to the merged contents but is no longer
what `target.n` refers to.  This theorem evaluates the engine at the
claim's own inputs and exhibits that divergence. -/
theorem claim1_merge_then_replace :
    ((mergePatch ⟨mergeListHeap, []⟩ 0 Option.none [] [("n", Value.ref 2)]).map
        (fun st => (getattrObj st.heap 0 "n", heapGet st.heap 1, heapGet st.heap 2))
      = .ok (some (Value.ref 2),
             some (.pylist [.intV 1, .intV 2, .intV 3, .intV 4]),
             some (.pylist [.intV 3, .intV 4])))
    ∧ ((mergePatch ⟨mergeDictHeap, []⟩ 0 Option.none [] [("n", Value.ref 2)]).map
        (fun st => (getattrObj st.heap 0 "n", heapGet st.heap 1, heapGet st.heap 2))
      = .ok (some (Value.ref 2),
             some (.pydict [("a", .intV 1), ("b", .intV 2)]),
             some (.pydict [("b", .intV 2)]))) := by
  constructor <;> rfl

/-- C4.  During a batch apply, an entry whose new and current values are
both callable and whose new value is already in the registry makes the
whole `apply` call return at that entry: the state is returned unchanged,
so the entry is not written and every later entry is left unprocessed. -/
theorem claim4_guard_aborts_batch (st : PState) (target : Addr) (merge : Bool)
    (attr : String) (value : Value) (rest : List (String × Value))
    (hc : callableV st.heap value = true)
    (ho : callableV st.heap (getattrStatic st.heap target attr) = true)
    (hin : recordsContains st.heap st.recs value = true) :
    applyEntries target merge st ((attr, value) :: rest) = st := by
  simp [applyEntries, hc, ho, hin]

/-- Witness for C4: a target module whose callable attribute `f` is
re-patched with an already-registered function, in a batch with a later
entry `g`; the whole batch is a no-op. -/
theorem claim4_guard_aborts_batch_witness :
    applyEntries 0 false
      ⟨[(0, .module "t" [("f", .ref 1)]), (1, .func 7 "f" [] .inert),
        (2, .func 8 "f2" [] .inert)],
       [(.codeK 8, .ref 1)]⟩
      [("f", .ref 2), ("g", .intV 5)]
      = ⟨[(0, .module "t" [("f", .ref 1)]), (1, .func 7 "f" [] .inert),
          (2, .func 8 "f2" [] .inert)],
         [(.codeK 8, .ref 1)]⟩ := by
  exact claim4_guard_aborts_batch _ 0 false "f" (.ref 2) [("g", .intV 5)]
    (by decide) (by decide) (by decide)

/-- C6.  When `super_patchy` is invoked from a function whose code object
has no recorded predecessor in `patchy_records`, the registry lookup raises
`RuntimeError` and `super_patchy` propagates it to the caller (it never
silently returns), whatever the caller's parameters, locals, mode flag and
arguments are. -/
theorem claim6_missing_predecessor_raises (fuel : Nat) (st : PState) (c : Nat)
    (argNames : List String) (locals : List (String × Value)) (dc : Bool)
    (args : List Value)
    (hnone : recordsGet st.heap st.recs (.codeV c) = Option.none) :
    superPatchy fuel st c argNames locals dc args
      = .error (.runtimeErr "Patched func cannot find its predecessor") := by
  simp [superPatchy, superResolve, hnone]

/-- Witness for C6: an empty registry has no predecessor for code object 3. -/
theorem claim6_missing_predecessor_raises_witness :
    superPatchy 5 ⟨[], []⟩ 3 ["self"] [("self", .intV 0)] true []
      = .error (.runtimeErr "Patched func cannot find its predecessor") :=
  claim6_missing_predecessor_raises 5 ⟨[], []⟩ 3 ["self"] [("self", .intV 0)]
    true [] (by decide)

/-- C2.  When `super_patchy` runs inside a function whose recorded
predecessor exists and whose first positional parameter is named exactly
`self` or `cls`, the predecessor is rebound as a method against that
parameter's runtime value: with the mode flag off the bound callable is
returned, and by default it is invoked with the given arguments (a bound
method call prepends the bound value).  In particular, patching `Foo.greet`
from `Bar.greet` makes `Foo().greet()` return "hi!". -/
theorem claim2_super_binding :
    (∀ (fuel : Nat) (st : PState) (c : Nat) (first : String)
       (restNames : List String) (locals : List (String × Value))
       (args : List Value) (old b : Value),
       recordsGet st.heap st.recs (.codeV c) = some old →
       (first = "self" ∨ first = "cls") →
       assocGet locals first = some b →
       superPatchy fuel st c (first :: restNames) locals false args
         = .ok (.boundMethod old b)
       ∧ superPatchy fuel st c (first :: restNames) locals true args
         = evalCall fuel st (.boundMethod old b) args)
  ∧ (∀ (fuel : Nat) (st : PState) (old b : Value) (args : List Value),
       evalCall (fuel + 1) st (.boundMethod old b) args
         = evalCall fuel st old (b :: args))
  ∧ ((addPatch ⟨fooBarHeap, []⟩ 10 (some (.ref 20)) [.strV "greet"] []).map
       (fun st => callMethod 10 st 30 "greet" []) = .ok (.ok (.strV "hi!"))) := by
  refine ⟨?_, ?_, ?_⟩
  · intro fuel st c first restNames locals args old b hold hfirst hloc
    constructor <;> simp [superPatchy, superResolve, hold, hfirst, hloc]
  · intro fuel st old b args
    rfl
  · rfl

/-- Witness for C2: the registry after the Foo/Bar patch maps code object 2
to Foo's original `greet`; called with `do_call` off, `super_patchy` returns
it bound to the instance. -/
theorem claim2_super_binding_witness :
    superPatchy 5 ⟨fooBarHeap, [(.codeK 2, .ref 11)]⟩ 2 ["self"]
      [("self", .ref 30)] false [] = .ok (.boundMethod (.ref 11) (.ref 30)) :=
  (claim2_super_binding.1 5 ⟨fooBarHeap, [(.codeK 2, .ref 11)]⟩ 2 "self" []
    [("self", .ref 30)] [] (.ref 11) (.ref 30) rfl (Or.inl rfl) rfl).1

theorem recordsContains_false_get {h : Heap} {recs : Records} {v : Value}
    (hc : recordsContains h recs v = false) :
    recordsGet h recs v = Option.none := by
  revert hc
  unfold recordsContains
  cases recordsGet h recs v <;> simp

theorem applyWrite_recs (st : PState) (target : Addr) (merge : Bool)
    (attr : String) (v ov : Value) :
    (applyWrite st target merge attr v ov).recs = st.recs := rfl

/-- C3.  First part: patching a callable attribute of a module with a fresh
function records exactly one predecessor entry for the installed callable's
code object, and re-applying the same patch is a complete no-op (the state
after the second apply is the state after the first), so the first-recorded
predecessor is not overwritten.  Second part: across any batch of apply
operations the registry keeps at most one entry per installed-callable
identity (its key list stays duplicate-free). -/
theorem claim3_idempotent_registry :
    (∀ (h : Heap) (recs : Records) (target va : Addr) (tn : String)
       (tattrs : List (String × Value)) (attr : String) (c : Nat) (fn : String)
       (ps : List String) (bd : FuncBody) (merge : Bool),
       heapGet h target = some (.module tn tattrs) →
       heapGet h va = some (.func c fn ps bd) →
       va ≠ target →
       callableV h (getattrStatic h target attr) = true →
       recordsContains h recs (.ref va) = false →
       applyEntries target merge
           (applyEntries target merge ⟨h, recs⟩ [(attr, .ref va)]) [(attr, .ref va)]
         = applyEntries target merge ⟨h, recs⟩ [(attr, .ref va)]
       ∧ (applyEntries target merge ⟨h, recs⟩ [(attr, .ref va)]).recs
         = recs ++ [(.codeK c, stripWrapper h (getattrStatic h target attr))]
       ∧ ((applyEntries target merge ⟨h, recs⟩ [(attr, .ref va)]).recs.map
            Prod.fst).count (RecKey.codeK c) = 1)
  ∧ (∀ (target : Addr) (merge : Bool) (entries : List (String × Value))
       (st : PState) (k : RecKey),
       (st.recs.map Prod.fst).Nodup →
       ((applyEntries target merge st entries).recs.map Prod.fst).Nodup
       ∧ ((applyEntries target merge st entries).recs.map Prod.fst).count k ≤ 1) := by
  constructor
  · intro h recs target va tn tattrs attr c fn ps bd merge hT hF hne ho hnotin
    have hcall : callableV h (.ref va) = true := callableV_func hF
    have hkey : recordKey h (.ref va) = .codeK c := recordKey_func hF
    have hget : recordsGet h recs (.ref va) = Option.none :=
      recordsContains_false_get hnotin
    have hkeys : RecKey.codeK c ∉ recs.map Prod.fst := by
      rw [← hkey]
      exact (assocGet_eq_none_iff recs (recordKey h (.ref va))).mp hget
    have hrecs1 :
        recordsSet h recs (.ref va) (getattrStatic h target attr)
          = recs ++ [(.codeK c, stripWrapper h (getattrStatic h target attr))] := by
      rw [recordsSet, hkey, assocSet_of_not_mem recs hkeys]
    have hst1 :
        applyEntries target merge ⟨h, recs⟩ [(attr, .ref va)]
          = ⟨heapSet h target (.module tn (assocSet tattrs attr (.ref va))),
             recs ++ [(.codeK c, stripWrapper h (getattrStatic h target attr))]⟩ := by
      simp [applyEntries, hcall, ho, hnotin, applyWrite,
        mergeInPlace_func target attr (getattrStatic h target attr) hF,
        setattrObj_module hT, hrecs1]
    have hheap1 :
        heapGet (heapSet h target (.module tn (assocSet tattrs attr (.ref va)))) va
          = some (.func c fn ps bd) := by
      rw [heapGet_heapSet_ne h hne, hF]
    have hsecond :
        applyEntries target merge
            (⟨heapSet h target (.module tn (assocSet tattrs attr (.ref va))),
              recs ++ [(.codeK c, stripWrapper h (getattrStatic h target attr))]⟩ : PState)
            [(attr, .ref va)]
          = ⟨heapSet h target (.module tn (assocSet tattrs attr (.ref va))),
             recs ++ [(.codeK c, stripWrapper h (getattrStatic h target attr))]⟩ := by
      have hstat :
          getattrStatic
              (heapSet h target (.module tn (assocSet tattrs attr (.ref va)))) target attr
            = .ref va := by
        rw [getattrStatic_module (heapGet_heapSet_self h target _) attr,
          assocGet_assocSet_self]
        rfl
      have hcall1 :
          callableV (heapSet h target (.module tn (assocSet tattrs attr (.ref va))))
            (.ref va) = true := callableV_func hheap1
      have hin1 :
          recordsContains
              (heapSet h target (.module tn (assocSet tattrs attr (.ref va))))
              (recs ++ [(.codeK c, stripWrapper h (getattrStatic h target attr))])
              (.ref va) = true := by
        rw [recordsContains, recordsGet, recordKey_func hheap1,
          ← assocSet_of_not_mem recs hkeys, assocGet_assocSet_self]
        rfl
      simp [applyEntries, hstat, hcall1, hin1]
    refine ⟨?_, ?_, ?_⟩
    · rw [hst1, hsecond]
    · rw [hst1]
    · rw [hst1]
      simp [List.count_append]
      exact List.count_eq_zero_of_not_mem hkeys
  · intro target merge entries
    induction entries with
    | nil =>
      intro st k hnd
      exact ⟨hnd, List.nodup_iff_count_le_one.mp hnd k⟩
    | cons e rest ih =>
      intro st k hnd
      obtain ⟨attr, value⟩ := e
      by_cases h1 : (callableV st.heap value
          && callableV st.heap (getattrStatic st.heap target attr)) = true
      · by_cases h2 : recordsContains st.heap st.recs value = true
        · simpa [applyEntries, h1, h2] using
            ⟨hnd, List.nodup_iff_count_le_one.mp hnd k⟩
        · have hnd1 : ((recordsSet st.heap st.recs value
              (getattrStatic st.heap target attr)).map Prod.fst).Nodup :=
            nodup_map_fst_assocSet _ _ _ hnd
          simpa [applyEntries, h1, h2, applyWrite_recs] using
            ih (applyWrite
              ⟨st.heap, recordsSet st.heap st.recs value
                (getattrStatic st.heap target attr)⟩
              target merge attr value (getattrStatic st.heap target attr)) k hnd1
      · simpa [applyEntries, h1] using
          ih (applyWrite st target merge attr value
            (getattrStatic st.heap target attr)) k hnd

/-- Witness for C3: a concrete module whose callable attribute `f` is
patched with a fresh function; the double apply is a no-op and the registry
holds exactly the one recorded predecessor. -/
theorem claim3_idempotent_registry_witness :
    applyEntries 0 false
        (applyEntries 0 false
          ⟨[(0, .module "t" [("f", .ref 1)]), (1, .func 7 "old" [] .inert),
            (2, .func 8 "new" [] .inert)], []⟩
          [("f", .ref 2)])
        [("f", .ref 2)]
      = applyEntries 0 false
          ⟨[(0, .module "t" [("f", .ref 1)]), (1, .func 7 "old" [] .inert),
            (2, .func 8 "new" [] .inert)], []⟩
          [("f", .ref 2)]
    ∧ (applyEntries 0 false
          ⟨[(0, .module "t" [("f", .ref 1)]), (1, .func 7 "old" [] .inert),
            (2, .func 8 "new" [] .inert)], []⟩
          [("f", .ref 2)]).recs
      = [] ++ [(.codeK 8, stripWrapper
          [(0, .module "t" [("f", .ref 1)]), (1, .func 7 "old" [] .inert),
           (2, .func 8 "new" [] .inert)]
          (getattrStatic
            [(0, .module "t" [("f", .ref 1)]), (1, .func 7 "old" [] .inert),
             (2, .func 8 "new" [] .inert)] 0 "f"))] := by
  have hmain := claim3_idempotent_registry.1
    [(0, .module "t" [("f", .ref 1)]), (1, .func 7 "old" [] .inert),
     (2, .func 8 "new" [] .inert)]
    [] 0 2 "t" [("f", .ref 1)] "f" 8 "new" [] .inert false
    rfl rfl (by decide) (by decide) (by decide)
  exact ⟨hmain.1, hmain.2.1⟩

/-- C5 counterexample.  For the dotless unresolvable name "zzz" with no
context, `resolve` does not raise the final ImportError naming the
requested path: the fallback branch executes `import_module(None)`, whose
`AttributeError` escapes the `suppress(ImportError)` block and propagates
with a message that does not mention "zzz" at all. -/
theorem claim5_dotless_attr_error :
    resolveName [] ⟨[]⟩ "zzz" .noneA
      = .error (.attrErr "NoneType object has no attribute startswith") := by
  rfl

/-- C5 (amended).  Dotted names that fail both the submodule import and the
prefix import raise `ImportError` naming only the trailing component (the
requested path's prefix is lost, and there is no context to report); a
dotless name searched in a module context that lacks it raises
`ImportError` naming the component and the context module; the positive
resolution examples behave as the claim says.  The dotless/no-context case
is carved out by the counterexample. -/
theorem claim5_resolution_errors :
    (∀ (h : Heap) (env : ImportEnv) (name : String) (e1 e2 : String),
       containsDot name = true →
       importModule env (some name) Option.none = .error (.importErr e1) →
       importModule env (some (dottedInit name)) Option.none = .error (.importErr e2) →
       resolveName h env name .noneA
         = .error (.importErr
             (dottedLast name ++ " is not a valid class or module name")))
  ∧ (∀ (h : Heap) (env : ImportEnv) (name : String) (a : Addr) (mn : String)
       (attrs : List (String × Value)),
       containsDot name = false →
       heapGet h a = some (.module mn attrs) →
       assocGet env.modules (mn ++ ("." ++ name)) = Option.none →
       assocGet attrs name = Option.none →
       resolveName h env name (.modA a)
         = .error (.importErr
             (name ++ " is not a valid class or module name" ++ (", within " ++ mn))))
  ∧ (resolveName osHeap osEnv "os.path" .noneA = .ok (.ref 6)
     ∧ resolveName osHeap osEnv "path" (.strA "os") = .ok (.ref 6)
     ∧ resolveName osHeap osEnv "join" (.strA "os.path") = .ok (.intV 42)) := by
  refine ⟨?_, ?_, ?_, ?_, ?_⟩
  · intro h env name e1 e2 hdot h1 h2
    have hn1 : ("" ++ name : String) = name := rfl
    have hn2 : ("" ++ dottedInit name : String) = dottedInit name := rfl
    simp [resolveName, hn1, h1, resolveFallback, hdot, hn2, h2, finalResolveMsg,
      String.append_empty]
  · intro h env name a mn attrs hdot hA henv hattr
    have hmn : moduleName h a = some mn := by simp [moduleName, hA]
    have hsw : startsWithDot ("." ++ name) = true := rfl
    simp [resolveName, hmn, importModule, hsw, henv, resolveFallback, hdot,
      isModuleAddr, hA, getattrObj, hattr, finalResolveMsg]
  · rfl
  · rfl
  · rfl

/-- Witness for C5 (amended): `resolve("nosuch.attr")` with no package
raises the ImportError whose message names only the trailing component
"attr". -/
theorem claim5_resolution_errors_witness :
    resolveName [] ⟨[]⟩ "nosuch.attr" .noneA
      = .error (.importErr
          (dottedLast "nosuch.attr" ++ " is not a valid class or module name")) :=
  claim5_resolution_errors.1 [] ⟨[]⟩ "nosuch.attr" "No module named nosuch.attr"
    "No module named nosuch" (by decide) rfl rfl

/-- C7.  For modules A and B and an attribute name `n` present on B,
`add`-patching A from B with the positional string `n` writes the very
value `getattr(B, n)` onto A: afterwards `getattr(A, n)` is the identical
object (the same `Value`, hence the same heap reference).  The only entry
that escapes the write is one cut short by the idempotency guard, which the
hypothesis excludes. -/
theorem claim7_add_identity (h : Heap) (recs : Records) (A B : Addr)
    (an bn : String) (aAttrs bAttrs : List (String × Value)) (n : String)
    (v : Value)
    (hA : heapGet h A = some (.module an aAttrs))
    (hB : heapGet h B = some (.module bn bAttrs))
    (hBn : assocGet bAttrs n = some v)
    (hguard : ¬(callableV h v = true ∧ callableV h (getattrStatic h A n) = true
                ∧ recordsContains h recs v = true)) :
    (addPatch ⟨h, recs⟩ A (some (.ref B)) [.strV n] []).map
      (fun st => getattrObj st.heap A n) = .ok (some v) := by
  have hbuild : buildKattrs h (some (.ref B)) [.strV n] [] = .ok [(n, v)] := by
    simp [buildKattrs, valueName, getattrObj, hB, hBn, assocSet]
  rw [addPatch, applyPatch, hbuild]
  simp only [Except.map]
  by_cases c1 : (callableV h v && callableV h (getattrStatic h A n)) = true
  · have hand := c1
    simp only [Bool.and_eq_true] at hand
    obtain ⟨cv, co⟩ := hand
    by_cases c2 : recordsContains h recs v = true
    · exact absurd ⟨cv, co, c2⟩ hguard
    · have c2f : recordsContains h recs v = false := by
        revert c2; cases recordsContains h recs v <;> simp
      simp [applyEntries, c1, c2f, applyWrite, setattrObj_module hA, getattrObj,
        heapGet_heapSet_self, assocGet_assocSet_self]
  · simp [applyEntries, c1, applyWrite, setattrObj_module hA, getattrObj,
      heapGet_heapSet_self, assocGet_assocSet_self]

/-- Witness for C7: module B holds `n = 9`; after `add`-patching, module A's
`n` is that very value. -/
theorem claim7_add_identity_witness :
    (addPatch ⟨[(0, .module "A" []), (1, .module "B" [("n", .intV 9)])], []⟩ 0
        (some (.ref 1)) [.strV "n"] []).map
      (fun st => getattrObj st.heap 0 "n") = .ok (some (.intV 9)) :=
  claim7_add_identity [(0, .module "A" []), (1, .module "B" [("n", .intV 9)])]
    [] 0 1 "A" "B" [] [("n", .intV 9)] "n" (.intV 9) rfl rfl rfl (by decide)

/-- C8.  The entry point returns a module-patch session for a module
target (source supplied or not), a class-patch session for a class target
with a truthy source, and no session (`None`) in every other case: a class
target with no source, a target whose heap object is neither a module nor a
class, and a non-reference target value. -/
theorem claim8_entry_dispatch :
    (∀ (h : Heap) (env : ImportEnv) (a : Addr) (source : Value) (mn : String)
       (attrs : List (String × Value)),
       (∀ s, source ≠ .strV s) →
       heapGet h a = some (.module mn attrs) →
       patchyEntry h env (.ref a) source = .ok (some (.modSession a source "_")))
  ∧ (∀ (h : Heap) (env : ImportEnv) (a : Addr) (source : Value) (cn : String)
       (attrs : List (String × Value)),
       (∀ s, source ≠ .strV s) →
       heapGet h a = some (.cls cn attrs) →
       truthy h source = true →
       patchyEntry h env (.ref a) source = .ok (some (.clsSession a source)))
  ∧ (∀ (h : Heap) (env : ImportEnv) (a : Addr) (cn : String)
       (attrs : List (String × Value)),
       heapGet h a = some (.cls cn attrs) →
       patchyEntry h env (.ref a) .pyNone = .ok Option.none)
  ∧ (∀ (h : Heap) (env : ImportEnv) (a : Addr) (source : Value) (o : PyObj),
       (∀ s, source ≠ .strV s) →
       heapGet h a = some o →
       isModuleOrClsObj o = false →
       patchyEntry h env (.ref a) source = .ok Option.none)
  ∧ (∀ (h : Heap) (env : ImportEnv) (target source : Value),
       (∀ s, target ≠ .strV s) → (∀ b, target ≠ .ref b) →
       (∀ s, source ≠ .strV s) →
       patchyEntry h env target source = .ok Option.none) := by
  refine ⟨?_, ?_, ?_, ?_, ?_⟩
  · intro h env a source mn attrs hs hA
    cases source <;>
      first
        | exact absurd rfl (hs _)
        | simp [patchyEntry, hA]
  · intro h env a source cn attrs hs hA htr
    cases source <;>
      first
        | exact absurd rfl (hs _)
        | simp [patchyEntry, hA, htr]
  · intro h env a cn attrs hA
    simp [patchyEntry, hA, truthy]
  · intro h env a source o hs hA ho
    cases source <;>
      first
        | exact absurd rfl (hs _)
        | (cases o <;> simp_all [patchyEntry, isModuleOrClsObj])
  · intro h env target source ht hr hs
    cases target <;>
      first
        | exact absurd rfl (ht _)
        | exact absurd rfl (hr _)
        | (cases source <;>
            first
              | exact absurd rfl (hs _)
              | rfl)

/-- Witness for C8: a bare module target with no source yields a
module-patch session. -/
theorem claim8_entry_dispatch_witness :
    patchyEntry [(0, .module "m" [])] ⟨[]⟩ (.ref 0) .pyNone
      = .ok (some (.modSession 0 .pyNone "_")) :=
  claim8_entry_dispatch.1 [(0, .module "m" [])] ⟨[]⟩ 0 .pyNone "m" []
    (fun _ hcontra => Value.noConfusion hcontra) rfl

theorem assocGet_foldl_of_not_mem {α β : Type} [DecidableEq α]
    (l : List (α × β)) (acc : List (α × β)) {k : α} (hk : k ∉ l.map Prod.fst) :
    assocGet (l.foldl (fun as p => assocSet as p.1 p.2) acc) k = assocGet acc k := by
  induction l generalizing acc with
  | nil => rfl
  | cons p rest ih =>
    obtain ⟨k1, v1⟩ := p
    simp only [List.map_cons, List.mem_cons, not_or] at hk
    rw [List.foldl_cons, ih _ hk.2, assocGet_assocSet_ne _ hk.1 _]

theorem assocGet_foldl_mem {α β : Type} [DecidableEq α]
    (l : List (α × β)) (acc : List (α × β)) {a : α} {v : β}
    (hnd : (l.map Prod.fst).Nodup) (hmem : (a, v) ∈ l) :
    assocGet (l.foldl (fun as p => assocSet as p.1 p.2) acc) a = some v := by
  induction l generalizing acc with
  | nil => cases hmem
  | cons p rest ih =>
    obtain ⟨k1, v1⟩ := p
    simp only [List.map_cons] at hnd
    rw [List.foldl_cons]
    rcases List.mem_cons.mp hmem with heq | htail
    · cases heq
      rw [assocGet_foldl_of_not_mem rest _ (List.nodup_cons.mp hnd).1,
        assocGet_assocSet_self]
    · exact ih _ (List.nodup_cons.mp hnd).2 htail

theorem heapGet_foldl_setattr_cls {h : Heap} {target : Addr} {cn : String}
    {cattrs : List (String × Value)} (kattrs : List (String × Value))
    (hT : heapGet h target = some (.cls cn cattrs)) :
    heapGet (kattrs.foldl (fun hh p => setattrObj hh target p.1 p.2) h) target
      = some (.cls cn (kattrs.foldl (fun as p => assocSet as p.1 p.2) cattrs)) := by
  induction kattrs generalizing h cattrs with
  | nil => exact hT
  | cons p rest ih =>
    rw [List.foldl_cons, List.foldl_cons]
    exact ih (by rw [setattrObj_cls hT, heapGet_heapSet_self])

/-- C9.  `add_desc` never reads or writes the predecessor registry: whenever
it succeeds, the registry is exactly what it was before.  It writes each
given attribute onto the target class: a keyword batch with distinct names
leaves every pair readable back from the class, and a positional string key
is copied verbatim from the session source's own `__dict__` and written
under that name. -/
theorem claim9_add_desc_no_registry :
    (∀ (st : PState) (target : Addr) (source : Value) (attrs : List Value)
       (kattrs : List (String × Value)) (st' : PState),
       addDesc st target source attrs kattrs = .ok st' → st'.recs = st.recs)
  ∧ (∀ (h : Heap) (recs : Records) (target : Addr) (cn : String)
       (cattrs : List (String × Value)) (kattrs : List (String × Value))
       (a : String) (v : Value),
       heapGet h target = some (.cls cn cattrs) →
       (kattrs.map Prod.fst).Nodup →
       (a, v) ∈ kattrs →
       addDesc ⟨h, recs⟩ target .pyNone [] kattrs
         = .ok ⟨kattrs.foldl (fun hh p => setattrObj hh target p.1 p.2) h, recs⟩
       ∧ getattrStatic
           (kattrs.foldl (fun hh p => setattrObj hh target p.1 p.2) h) target a
         = v)
  ∧ (∀ (h : Heap) (recs : Records) (target srcA : Addr) (cn sn s : String)
       (cattrs sattrs : List (String × Value)) (v : Value),
       heapGet h target = some (.cls cn cattrs) →
       heapGet h srcA = some (.cls sn sattrs) →
       assocGet sattrs s = some v →
       addDesc ⟨h, recs⟩ target (.ref srcA) [.strV s] []
         = .ok ⟨setattrObj h target s v, recs⟩
       ∧ getattrStatic (setattrObj h target s v) target s = v) := by
  refine ⟨?_, ?_, ?_⟩
  · intro st target source attrs kattrs st' hok
    revert hok
    unfold addDesc
    cases addDescAttrs target source
        (kattrs.foldl (fun h p => setattrObj h target p.1 p.2) st.heap) attrs with
    | ok hh => intro hok; cases hok; rfl
    | error e => intro hok; cases hok
  · intro h recs target cn cattrs kattrs a v hT hnd hmem
    refine ⟨rfl, ?_⟩
    simp [getattrStatic, heapGet_foldl_setattr_cls kattrs hT,
      assocGet_foldl_mem kattrs cattrs hnd hmem]
  · intro h recs target srcA cn sn s cattrs sattrs v hT hS hsv
    constructor
    · simp [addDesc, addDescAttrs, valueName, sourceDictGet, hS, hsv]
    · simp [setattrObj_cls hT, getattrStatic, heapGet_heapSet_self,
        assocGet_assocSet_self]

/-- Witness for C9: copying the data descriptor `d` from source class `S`
onto target class `T` writes it and leaves a non-empty registry untouched. -/
theorem claim9_add_desc_no_registry_witness :
    addDesc ⟨[(0, .cls "T" []), (1, .cls "S" [("d", .intV 3)])],
             [(.codeK 9, .pyNone)]⟩ 0 (.ref 1) [.strV "d"] []
      = .ok ⟨setattrObj [(0, .cls "T" []), (1, .cls "S" [("d", .intV 3)])] 0 "d"
               (.intV 3),
             [(.codeK 9, .pyNone)]⟩ :=
  (claim9_add_desc_no_registry.2.2 [(0, .cls "T" []), (1, .cls "S" [("d", .intV 3)])]
    [(.codeK 9, .pyNone)] 0 1 "T" "S" "d" [] [("d", .intV 3)] (.intV 3)
    rfl rfl rfl).1

/-- C10.  The registry's key normalization is applied consistently across
set, get, membership and delete: after `records[k] = v`, lookup and
membership succeed for `k` itself; a function key and its code object are
interchangeable in both directions; the stored value is `v` unwrapped (a
`classmethod`/`staticmethod` is stored as its `__func__`); a key whose
normalization was never stored raises (`Option.none`) rather than
returning a default; and deleting a key removes it for membership. -/
theorem claim10_records_consistent :
    (∀ (h : Heap) (r : Records) (k v : Value),
       recordsGet h (recordsSet h r k v) k = some (stripWrapper h v)
       ∧ recordsContains h (recordsSet h r k v) k = true)
  ∧ (∀ (h : Heap) (r : Records) (a : Addr) (c : Nat) (fn : String)
       (ps : List String) (bd : FuncBody) (v : Value),
       heapGet h a = some (.func c fn ps bd) →
       recordsGet h (recordsSet h r (.ref a) v) (.codeV c) = some (stripWrapper h v)
       ∧ recordsGet h (recordsSet h r (.codeV c) v) (.ref a) = some (stripWrapper h v)
       ∧ recordsContains h (recordsSet h r (.ref a) v) (.codeV c) = true)
  ∧ (∀ (h : Heap) (r : Records) (k : Value),
       recordKey h k ∉ r.map Prod.fst → recordsGet h r k = Option.none)
  ∧ (∀ (h : Heap) (r : Records) (k v : Value),
       recordsContains h (recordsDel h (recordsSet h r k v) k) k = false) := by
  refine ⟨?_, ?_, ?_, ?_⟩
  · intro h r k v
    constructor
    · rw [recordsGet, recordsSet, assocGet_assocSet_self]
    · rw [recordsContains, recordsGet, recordsSet, assocGet_assocSet_self]
      rfl
  · intro h r a c fn ps bd v hf
    have hk1 : recordKey h (.ref a) = .codeK c := recordKey_func hf
    have hk2 : recordKey h (.codeV c) = .codeK c := rfl
    refine ⟨?_, ?_, ?_⟩
    · rw [recordsGet, recordsSet, hk1, hk2, assocGet_assocSet_self]
    · rw [recordsGet, recordsSet, hk1, hk2, assocGet_assocSet_self]
    · rw [recordsContains, recordsGet, recordsSet, hk1, hk2,
        assocGet_assocSet_self]
      rfl
  · intro h r k hk
    exact (assocGet_eq_none_iff r (recordKey h k)).mpr hk
  · intro h r k v
    rw [recordsContains, recordsGet, recordsDel, assocGet_filter_ne]
    rfl

/-- Witness for C10: a function at address 1 with code object 5; a
classmethod-wrapped value is stored unwrapped and found under the code
object. -/
theorem claim10_records_consistent_witness :
    recordsGet [(1, .func 5 "f" [] .inert), (2, .classmeth (.ref 1))]
        (recordsSet [(1, .func 5 "f" [] .inert), (2, .classmeth (.ref 1))] []
          (.ref 1) (.ref 2))
        (.codeV 5)
      = some (stripWrapper [(1, .func 5 "f" [] .inert), (2, .classmeth (.ref 1))]
          (.ref 2)) :=
  (claim10_records_consistent.2.1 [(1, .func 5 "f" [] .inert), (2, .classmeth (.ref 1))]
    [] 1 5 "f" [] .inert (.ref 2) rfl).1

end Patchy
